import Mathlib

/-! ethdb: the LevelDB storage facade (`ethdb/database.go`)

A shallow embedding of `LDBDatabase` and of `NewLDBDatabase`, `Put`, `Get`,
`Delete`, `NewIterator`, `Flush` and `Close`.

* A Go result pair `(value, error)` is a Lean pair whose components are
  `Option`s: `none` is Go's `nil`.
* The LevelDB session `self.db` is a third-party dependency. It enters as an
  interface `LevelDB σ` over an engine state `σ`; every facade method takes the
  engine state held in the handle and returns the handle with the new state.
* The package `compression/rle` enters as an interface `Codec`; `rleCodec` is
  that package, `runLengthCodec` a second, simpler instance.
* A `metrics.Meter` is the log of the amounts passed to `Mark`, a
  `metrics.Timer` the log of the recorded durations. Each of the six hook
  fields carries a log of its own (no two fields share one metrics object).
* The clock is explicit: `Clock.start` is what `time.Now()` reads on entry and
  `Clock.stop` what the deferred `UpdateSince` reads on exit.
-/

namespace ethdb

/-! ## Data model -/

/-- One byte. -/
abbrev Byte := Fin 256

/-- A Go `[]byte`. -/
abbrev Bytes := List Byte

/-- The Go `error` values the facade can meet. `ErrNotFound` and `ErrClosed`
are the sentinels of package `leveldb`, `ErrCorrupted` stands for a value of
type `*errors.ErrCorrupted`, and `Other` is any remaining error value. -/
inductive Error where
  | ErrNotFound
  | ErrClosed
  | ErrCorrupted (detail : String)
  | Other (msg : String)
  deriving DecidableEq, Repr

/-- The type assertion `err.(*errors.ErrCorrupted)` of `NewLDBDatabase`; on a
nil error the assertion fails, which `iscorrupted` expresses on `Option`. -/
def Error.isCorrupted : Error → Bool
  | .ErrCorrupted _ => true
  | _ => false

/-- The boolean `iscorrupted` of `_, iscorrupted := err.(*errors.ErrCorrupted)`. -/
def iscorrupted : Option Error → Bool
  | some e => e.isCorrupted
  | none => false

/-- A `metrics.Meter`: the amounts marked so far, oldest first. -/
abbrev Meter := List Int

/-- A `metrics.Timer`: the durations recorded so far, oldest first. -/
abbrev Timer := List Int

/-- `Meter.Mark(n)`. -/
def Meter.Mark (m : Meter) (n : Int) : Meter := m ++ [n]

/-- `Meter.Count()`: the sum of the marked amounts. -/
def Meter.Count (m : Meter) : Int := m.sum

/-- The two clock readings of one facade call. -/
structure Clock where
  start : Int
  stop : Int
  deriving DecidableEq, Repr

/-- `Timer.UpdateSince(start)` run when the clock reads `now`. -/
def Timer.UpdateSince (t : Timer) (start now : Int) : Timer := t ++ [now - start]

/-- The methods of `*leveldb.DB` the facade calls, over an engine state `σ`.
`Get` returns the pair `(dat, err)`; `Put` and `Delete` return the new engine
state and the error; `NewIterator` returns the cursor, as the sequence of
key/value pairs it walks. -/
structure LevelDB (σ : Type) where
  Get : σ → Bytes → Bytes × Option Error
  Put : σ → Bytes → Bytes → σ × Option Error
  Delete : σ → Bytes → σ × Option Error
  NewIterator : σ → List (Bytes × Bytes)
  Close : σ → σ

/-- The two functions of package `compression/rle` the facade calls.
`Decompress` returns the Go pair `([]byte, error)`. -/
structure Codec where
  Compress : Bytes → Bytes
  Decompress : Bytes → Option Bytes × Option Error

/-- The struct `LDBDatabase`. -/
structure LDBDatabase (σ : Type) where
  fn : String
  db : σ
  GetTimer : Option Timer
  PutTimer : Option Timer
  DelTimer : Option Timer
  MissMeter : Option Meter
  ReadMeter : Option Meter
  WriteMeter : Option Meter
  deriving DecidableEq, Repr

/-- The package variable `OpenFileLimit`. -/
def OpenFileLimit : Nat := 64

/-! ## Opening -/

/-- What `leveldb.OpenFile` and `leveldb.RecoverFile` return: a session with a
nil error, or a nil session with an error. -/
inductive Session (σ : Type) where
  | ok (db : σ)
  | fail (err : Error)
  deriving DecidableEq, Repr

/-- The error component of a `Session`. -/
def Session.err {σ : Type} : Session σ → Option Error
  | .ok _ => none
  | .fail e => some e

/-- The package-level functions of `leveldb`, over a world `W` (the disk).
`OpenFile w file cap` is `leveldb.OpenFile(file, &opt.Options{OpenFilesCacheCapacity: cap})`
and `RecoverFile w file` is `leveldb.RecoverFile(file, nil)`. -/
structure Driver (W σ : Type) where
  OpenFile : W → String → Nat → W × Session σ
  RecoverFile : W → String → W × Session σ

/-- One call into the `leveldb` package. -/
inductive Call where
  | OpenFile (file : String) (cap : Nat)
  | RecoverFile (file : String)
  deriving DecidableEq, Repr

/-- The outcome of `NewLDBDatabase`: the Go result pair, the world it leaves and
the calls it made, in order. -/
structure Opened (W σ : Type) where
  handle : Option (LDBDatabase σ)
  err : Option Error
  world : W
  calls : List Call

/-- `NewLDBDatabase(file)`, with the value of `OpenFileLimit` as `limit`. -/
def NewLDBDatabase {W σ : Type} (L : Driver W σ) (limit : Nat) (w : W) (file : String) :
    Opened W σ :=
  -- db, err := leveldb.OpenFile(file, ...)
  let r0 := L.OpenFile w file limit
  let calls0 := [Call.OpenFile file limit]
  -- if _, iscorrupted := err.(*errors.ErrCorrupted); iscorrupted { db, err = leveldb.RecoverFile(file, nil) }
  let r1 := if iscorrupted r0.2.err then L.RecoverFile r0.1 file else r0
  let calls1 := if iscorrupted r0.2.err then calls0 ++ [Call.RecoverFile file] else calls0
  -- if err != nil { return nil, err }
  match r1.2 with
  | .fail e => { handle := none, err := some e, world := r1.1, calls := calls1 }
  | .ok db =>
    { handle := some { fn := file, db := db, GetTimer := none, PutTimer := none,
                       DelTimer := none, MissMeter := none, ReadMeter := none,
                       WriteMeter := none },
      err := none, world := r1.1, calls := calls1 }

/-! ## Put, Get, Delete -/

/-- `LDBDatabase.Put(key, value)`: the handle afterwards and the returned error. -/
def Put {σ : Type} (E : LevelDB σ) (c : Codec) (clk : Clock) (self : LDBDatabase σ)
    (key value : Bytes) : LDBDatabase σ × Option Error :=
  -- dat := rle.Compress(value)
  let dat := c.Compress value
  -- if self.WriteMeter != nil { self.WriteMeter.Mark(int64(len(dat))) }
  let wm := self.WriteMeter.map (fun m => Meter.Mark m (dat.length : Int))
  -- return self.db.Put(key, dat, nil)
  let r := E.Put self.db key dat
  -- deferred: self.PutTimer.UpdateSince(start), when PutTimer != nil
  let pt := self.PutTimer.map (fun t => Timer.UpdateSince t clk.start clk.stop)
  ({ self with db := r.1, WriteMeter := wm, PutTimer := pt }, r.2)

/-- `LDBDatabase.Get(key)`: the handle afterwards and the returned pair. -/
def Get {σ : Type} (E : LevelDB σ) (c : Codec) (clk : Clock) (self : LDBDatabase σ)
    (key : Bytes) : LDBDatabase σ × (Option Bytes × Option Error) :=
  -- deferred: self.GetTimer.UpdateSince(start), when GetTimer != nil
  let gt := self.GetTimer.map (fun t => Timer.UpdateSince t clk.start clk.stop)
  -- dat, err := self.db.Get(key, nil)
  let r := E.Get self.db key
  match r.2 with
  | some err =>
    -- if err != nil { if self.MissMeter != nil { self.MissMeter.Mark(1) }; return nil, err }
    ({ self with MissMeter := self.MissMeter.map (fun m => Meter.Mark m 1), GetTimer := gt },
      (none, some err))
  | none =>
    -- if self.ReadMeter != nil { self.ReadMeter.Mark(int64(len(dat))) }; return rle.Decompress(dat)
    ({ self with ReadMeter := self.ReadMeter.map (fun m => Meter.Mark m (r.1.length : Int)),
                 GetTimer := gt },
      c.Decompress r.1)

/-- `LDBDatabase.Delete(key)`: the handle afterwards and the returned error. -/
def Delete {σ : Type} (E : LevelDB σ) (clk : Clock) (self : LDBDatabase σ)
    (key : Bytes) : LDBDatabase σ × Option Error :=
  -- return self.db.Delete(key, nil)
  let r := E.Delete self.db key
  -- deferred: self.DelTimer.UpdateSince(start), when DelTimer != nil
  let dt := self.DelTimer.map (fun t => Timer.UpdateSince t clk.start clk.stop)
  ({ self with db := r.1, DelTimer := dt }, r.2)

/-- `LDBDatabase.NewIterator()`: the engine's cursor. -/
def NewIterator {σ : Type} (E : LevelDB σ) (self : LDBDatabase σ) : List (Bytes × Bytes) :=
  E.NewIterator self.db

/-- `LDBDatabase.Flush()`. -/
def Flush {σ : Type} (_self : LDBDatabase σ) : Option Error := none

/-- One call to the logger `glog.V(logger.Error)` made by `Close`: the line
`error: flush '<fn>': <err>` or the line `flushed and closed db: <fn>`. -/
inductive LogLine where
  | flushError (fn : String) (err : Error)
  | flushedAndClosed (fn : String)
  deriving DecidableEq, Repr

/-- `LDBDatabase.Close()`: the handle afterwards and the lines handed to the
logger, in order. -/
def Close {σ : Type} (E : LevelDB σ) (self : LDBDatabase σ) : LDBDatabase σ × List LogLine :=
  -- if err := self.Flush(); err != nil { glog.V(logger.Error).Infof(...) }
  let log0 := match Flush self with
    | some err => [LogLine.flushError self.fn err]
    | none => []
  -- self.db.Close(); glog.V(logger.Error).Infoln("flushed and closed db:", self.fn)
  ({ self with db := E.Close self.db }, log0 ++ [LogLine.flushedAndClosed self.fn])

/-- A handle with no hook attached, as `NewLDBDatabase` builds it. -/
def bare {σ : Type} (file : String) (db : σ) : LDBDatabase σ :=
  { fn := file, db := db, GetTimer := none, PutTimer := none, DelTimer := none,
    MissMeter := none, ReadMeter := none, WriteMeter := none }

/-- A handle with all six hooks attached, each with an empty log. -/
def metered {σ : Type} (file : String) (db : σ) : LDBDatabase σ :=
  { fn := file, db := db, GetTimer := some [], PutTimer := some [], DelTimer := some [],
    MissMeter := some [], ReadMeter := some [], WriteMeter := some [] }

/-! ## Sequences of facade calls -/

/-- One call of `Put`, `Get` or `Delete`, with its clock readings. -/
inductive Op where
  | put (clk : Clock) (key value : Bytes)
  | get (clk : Clock) (key : Bytes)
  | del (clk : Clock) (key : Bytes)
  deriving DecidableEq, Repr

/-- Whether the call overwrites or deletes `k`. -/
def Op.writes (k : Bytes) : Op → Bool
  | .put _ key _ => decide (key = k)
  | .get _ _ => false
  | .del _ key => decide (key = k)

/-- The handle after one call. -/
def Op.run {σ : Type} (E : LevelDB σ) (c : Codec) (self : LDBDatabase σ) : Op → LDBDatabase σ
  | .put clk key value => (Put E c clk self key value).1
  | .get clk key => (Get E c clk self key).1
  | .del clk key => (Delete E clk self key).1

/-- The handle after a sequence of calls, first to last. -/
def runOps {σ : Type} (E : LevelDB σ) (c : Codec) (self : LDBDatabase σ) :
    List Op → LDBDatabase σ
  | [] => self
  | op :: rest => runOps E c (op.run E c self) rest

/-- The value a cursor exposes at key `k`: that of the first entry keyed `k`. -/
def valueAt (k : Bytes) : List (Bytes × Bytes) → Option Bytes
  | [] => none
  | (key, d) :: rest => if key = k then some d else valueAt k rest

/-! ## The engine's contract -/

/-- An engine that stores what it is given: a key reads back the bytes of the
last successful write to it, writes and deletes of other keys leave it alone,
a successful delete makes the key absent, deleting an absent key succeeds and
changes nothing, and the cursor shows the stored bytes. -/
structure LevelDB.Faithful {σ : Type} (E : LevelDB σ) : Prop where
  get_put_same : ∀ s k d, (E.Put s k d).2 = none → E.Get (E.Put s k d).1 k = (d, none)
  get_put_other : ∀ s k key d, key ≠ k → E.Get (E.Put s key d).1 k = E.Get s k
  get_delete_same : ∀ s k, (E.Delete s k).2 = none →
    (E.Get (E.Delete s k).1 k).2 = some Error.ErrNotFound
  get_delete_other : ∀ s k key, key ≠ k → E.Get (E.Delete s key).1 k = E.Get s k
  delete_absent : ∀ s k, (E.Get s k).2 = some Error.ErrNotFound → E.Delete s k = (s, none)
  iterator_get : ∀ s k d, E.Get s k = (d, none) → valueAt k (E.NewIterator s) = some d

/-! ## Reference instances -/

/-- Modelled from the spec: the external storage engine of §6 (`goleveldb`, a
third-party package), as an in-memory session. It holds the key/value pairs it
was given, reports `ErrNotFound` for an absent key, accepts the delete of an
absent key, and answers `ErrClosed` to every call once closed. Key order of the
cursor is not modelled. -/
structure MemDB where
  closed : Bool
  data : List (Bytes × Bytes)
  deriving DecidableEq, Repr

/-- The pairs of `l` whose key is not `k`. -/
def MemDB.erase (k : Bytes) : List (Bytes × Bytes) → List (Bytes × Bytes)
  | [] => []
  | (key, d) :: rest => if key = k then MemDB.erase k rest else (key, d) :: MemDB.erase k rest

/-- Modelled from the spec: the operations of the external engine (§6) on `MemDB`. -/
def memdb : LevelDB MemDB where
  Get s k :=
    if s.closed then ([], some Error.ErrClosed)
    else match valueAt k s.data with
      | some d => (d, none)
      | none => ([], some Error.ErrNotFound)
  Put s k d :=
    if s.closed then (s, some Error.ErrClosed)
    else ({ s with data := (k, d) :: MemDB.erase k s.data }, none)
  Delete s k :=
    if s.closed then (s, some Error.ErrClosed)
    else ({ s with data := MemDB.erase k s.data }, none)
  NewIterator s := if s.closed then [] else s.data
  Close s := { s with closed := true }

/-- An open, empty session. -/
def MemDB.empty : MemDB := { closed := false, data := [] }

/-- Modelled from the spec: the on-disk state of one location as the external
engine classifies it (§4.1, §6): readable, corrupted (repairable by the recovery
pass or not), or not openable for a reason other than corruption. -/
inductive Disk where
  | healthy (data : List (Bytes × Bytes))
  | corrupted (repairable : Bool) (data : List (Bytes × Bytes))
  | locked
  deriving DecidableEq, Repr

/-- Modelled from the spec: `open` and `recover` of the external engine (§6)
over `Disk`. -/
def memDriver : Driver Disk MemDB where
  OpenFile w _ _ :=
    match w with
    | .healthy d => (w, .ok { closed := false, data := d })
    | .corrupted _ _ => (w, .fail (Error.ErrCorrupted "manifest"))
    | .locked => (w, .fail (Error.Other "resource temporarily unavailable"))
  RecoverFile w _ :=
    match w with
    | .healthy d => (w, .ok { closed := false, data := d })
    | .corrupted true d => (.healthy d, .ok { closed := false, data := d })
    | .corrupted false _ => (w, .fail (Error.Other "recovery failed"))
    | .locked => (w, .fail (Error.Other "resource temporarily unavailable"))

/-- Modelled from the spec: the encoder of the compression codec (package
`compression/rle`), here run-length coding of a byte sequence as `(count, byte)`
pairs with counts in `1..255`. -/
def runLengthCompress : Bytes → Bytes
  | [] => []
  | b :: rest =>
    match runLengthCompress rest with
    | n :: b0 :: tail =>
      if b0 = b ∧ n.val < 255 then (n + 1) :: b :: tail else 1 :: b :: n :: b0 :: tail
    | _ => [1, b]

/-- Modelled from the spec: the decoder of the compression codec (package
`compression/rle`), the inverse of `runLengthCompress`; a payload of odd length
is malformed and fails to decode. -/
def runLengthDecompress : Bytes → Option Bytes × Option Error
  | [] => (some [], none)
  | [_] => (none, some (Error.Other "rle: truncated payload"))
  | n :: b :: rest =>
    match runLengthDecompress rest with
    | (some out, none) => (some (List.replicate n.val b ++ out), none)
    | r => (none, r.2)

/-- Modelled from the spec: the compression codec (package `compression/rle`),
of which the spec fixes only the contract (§2, §3, §4.3): a stateless pair of
functions, decoding what was encoded gives the value back, and a malformed
payload fails to decode. This instance is a plain run-length code, simpler
than the byte format of the package, which is `rleCodec`. -/
def runLengthCodec : Codec where
  Compress := runLengthCompress
  Decompress := runLengthDecompress

/-- The bytes of a short ASCII string. -/
def ascii (s : String) : Bytes := s.toList.map (fun ch => Fin.ofNat ch.toNat)


/-! ## The codec of package `compression/rle` -/

namespace rle

/-- Modelled from the spec: the constant `token` of package `compression/rle`
(see `Decompress`). -/
def token : Byte := 0xfe

/-- Modelled from the spec: the constant `emptyShaToken` of package
`compression/rle` (see `Decompress`). -/
def emptyShaToken : Byte := 0xfd

/-- Modelled from the spec: the constant `emptyListShaToken` of package
`compression/rle` (see `Decompress`). -/
def emptyListShaToken : Byte := 0xfe

/-- Modelled from the spec: the constant `tokenToken` of package
`compression/rle` (see `Decompress`). -/
def tokenToken : Byte := 0xff

/-- Modelled from the spec: the variable `empty` of package `compression/rle`
(see `Decompress`), `crypto.Sha3([]byte(""))`: the Keccak-256 digest of the
empty byte sequence. -/
def empty : Bytes :=
  [0xc5, 0xd2, 0x46, 0x01, 0x86, 0xf7, 0x23, 0x3c, 0x92, 0x7e, 0x7d, 0xb2, 0xdc, 0xc7, 0x03, 0xc0,
   0xe5, 0x00, 0xb6, 0x53, 0xca, 0x82, 0x27, 0x3b, 0x7b, 0xfa, 0xd8, 0x04, 0x5d, 0x85, 0xa4, 0x70]

/-- Modelled from the spec: the variable `emptyList` of package
`compression/rle` (see `Decompress`), `crypto.Sha3([]byte{0x80})`: the
Keccak-256 digest of the single byte `0x80`. -/
def emptyList : Bytes :=
  [0x56, 0xe8, 0x1f, 0x17, 0x1b, 0xcc, 0x55, 0xa6, 0xff, 0x83, 0x45, 0xe6, 0x92, 0xc0, 0xf8, 0x6e,
   0x5b, 0x48, 0xe0, 0x1b, 0x99, 0x6c, 0xad, 0xc0, 0x01, 0x62, 0x2f, 0xb5, 0xe3, 0x63, 0xb4, 0x21]

/-- Modelled from the spec: the loop of `rle.Decompress` (see `Decompress`) from
index `i` on, as the bytes it writes to the buffer; `none` is the return `nil, errors.New(...)` on a token that ends the
input. The length of a zero run is `int(dat[i+1]-2)`, in byte arithmetic. -/
def decompressLoop : Bytes → Option Bytes
  | [] => some []
  | [b] => if b = token then none else some [b]
  | b :: x :: rest =>
    if b = token then
      (decompressLoop rest).map (fun out =>
        (if x = emptyShaToken then empty
         else if x = emptyListShaToken then emptyList
         else if x = tokenToken then [token]
         else List.replicate (x - 2).val 0) ++ out)
    else
      (decompressLoop (x :: rest)).map (fun out => b :: out)

/-- Modelled from the spec: what `buf.Bytes()` returns at the end of
`rle.Decompress` (see `Decompress`) for a `bytes.Buffer` holding `out`: the nil
slice when nothing was written. -/
def bufferBytes (out : Bytes) : Option Bytes :=
  if out = [] then none else some out

/-- Modelled from the spec: `rle.Decompress`, the decoder of the compression
codec. Package `compression/rle` belongs to this repository but its file is not
among the sources at hand, and the spec fixes the codec's contract only (§2,
§3, §4.3); the byte format is that of the package as published upstream. -/
def Decompress (dat : Bytes) : Option Bytes × Option Error :=
  match decompressLoop dat with
  | some out => (bufferBytes out, none)
  | none =>
    (none, some (Error.Other "error reading bytes. token encountered without proceeding bytes"))

/-- Modelled from the spec: the loop
`for j <= 254 && j < len(dat) { if dat[j] != 0 { break }; j++ }` of
`compressChunk` (see `Decompress`): the final `j`, with `cap` the iterations still allowed. -/
def zeroRun : Nat → Bytes → Nat
  | 0, _ => 0
  | _, [] => 0
  | cap + 1, b :: rest => if b = 0 then zeroRun cap rest + 1 else 0

/-- Modelled from the spec: `compressChunk` of package `compression/rle` (see
`Decompress`), on a non-empty `dat`: the bytes emitted and the number of input
bytes consumed. -/
def compressChunk (dat : Bytes) : Bytes × Nat :=
  if dat.head? = some token then
    ([token, tokenToken], 1)
  else if 1 < dat.length ∧ dat.head? = some 0 ∧ dat.tail.head? = some 0 then
    ([token, Fin.ofNat (zeroRun 255 dat + 2)], zeroRun 255 dat)
  else if 32 ≤ dat.length ∧ dat.head? = empty.head? ∧ dat.take 32 = empty then
    ([token, emptyShaToken], 32)
  else if 32 ≤ dat.length ∧ dat.head? = emptyList.head? ∧ dat.take 32 = emptyList then
    ([token, emptyListShaToken], 32)
  else
    (dat.take 1, 1)

/-- Modelled from the spec: the loop `for i < len(dat)` of `rle.Compress` (see
`Decompress`) on the rest `dat[i:]`; `fuel`
bounds the number of chunks, and `dat.length` is enough since every chunk
consumes at least one byte. -/
def compressLoop : Nat → Bytes → Bytes
  | 0, _ => []
  | fuel + 1, dat =>
    if dat = [] then []
    else (compressChunk dat).1 ++ compressLoop fuel (dat.drop (compressChunk dat).2)

/-- Modelled from the spec: `rle.Compress`, the encoder of the compression codec
(see `Decompress`). -/
def Compress (dat : Bytes) : Bytes := compressLoop dat.length dat

end rle

/-- Modelled from the spec: the compression codec the facade imports, package
`compression/rle`, with the byte format of `rle.Compress` and `rle.Decompress`. -/
def rleCodec : Codec where
  Compress := rle.Compress
  Decompress := rle.Decompress

/-! ## Lemmas on the reference instances -/

theorem valueAt_erase_same (k : Bytes) (l : List (Bytes × Bytes)) :
    valueAt k (MemDB.erase k l) = none := by
  induction l with
  | nil => rfl
  | cons p rest ih =>
    obtain ⟨key, d⟩ := p
    by_cases h : key = k
    · simp [MemDB.erase, h, ih]
    · simp [MemDB.erase, valueAt, h, ih]

theorem valueAt_erase_other (k key : Bytes) (l : List (Bytes × Bytes)) (hne : key ≠ k) :
    valueAt k (MemDB.erase key l) = valueAt k l := by
  induction l with
  | nil => rfl
  | cons p rest ih =>
    obtain ⟨key0, d⟩ := p
    by_cases h : key0 = key
    · subst h
      simp [MemDB.erase, valueAt, hne, ih]
    · by_cases h2 : key0 = k
      · subst h2
        simp [MemDB.erase, valueAt, h]
      · simp [MemDB.erase, valueAt, h, h2, ih]

theorem erase_of_absent (k : Bytes) (l : List (Bytes × Bytes)) (h : valueAt k l = none) :
    MemDB.erase k l = l := by
  induction l with
  | nil => rfl
  | cons p rest ih =>
    obtain ⟨key, d⟩ := p
    by_cases hk : key = k
    · simp [valueAt, hk] at h
    · simp [valueAt, hk] at h
      simp [MemDB.erase, hk, ih h]

theorem memdb_faithful : memdb.Faithful where
  get_put_same := by
    intro s k d h
    cases hc : s.closed <;> simp [memdb, hc, valueAt] at h ⊢
  get_put_other := by
    intro s k key d hne
    cases hc : s.closed
    · simp [memdb, hc, valueAt, hne, valueAt_erase_other k key s.data hne]
    · simp [memdb, hc]
  get_delete_same := by
    intro s k h
    cases hc : s.closed
    · simp [memdb, hc, valueAt_erase_same]
    · simp [memdb, hc] at h
  get_delete_other := by
    intro s k key hne
    cases hc : s.closed
    · simp [memdb, hc, valueAt_erase_other k key s.data hne]
    · simp [memdb, hc]
  delete_absent := by
    intro s k h
    cases hc : s.closed
    · simp only [memdb, hc] at h ⊢
      cases hv : valueAt k s.data with
      | none =>
        obtain ⟨cl, data⟩ := s
        simp only at hc hv
        simp [erase_of_absent k data hv, hc]
      | some d => simp [hv] at h
    · simp [memdb, hc] at h
  iterator_get := by
    intro s k d h
    cases hc : s.closed
    · simp only [memdb, hc] at h ⊢
      cases hv : valueAt k s.data with
      | none => simp [hv] at h
      | some d0 =>
        simp [hv] at h
        simp [hv, h]
    · simp [memdb, hc] at h

theorem runLength_lossless (v : Bytes) :
    runLengthDecompress (runLengthCompress v) = (some v, none) := by
  induction v with
  | nil => rfl
  | cons b rest ih =>
    simp only [runLengthCompress]
    cases hcs : runLengthCompress rest with
    | nil =>
      rw [hcs] at ih
      simp [runLengthDecompress] at ih
      simp [runLengthDecompress, ih]
    | cons n t =>
      cases t with
      | nil =>
        rw [hcs] at ih
        simp [runLengthDecompress] at ih
      | cons b0 tail =>
        rw [hcs] at ih
        simp only [runLengthDecompress] at ih
        split at ih
        · rename_i out hout
          simp only [Prod.mk.injEq, Option.some.injEq, and_true] at ih
          by_cases hc : b0 = b ∧ n.val < 255
          · obtain ⟨hb, hn⟩ := hc
            subst hb
            have hv : (n + 1 : Byte).val = n.val + 1 := by
              rw [Fin.val_add]
              simp
              omega
            simp [runLengthDecompress, hout, hn, hv, List.replicate_succ, ih]
          · simp [hc, runLengthDecompress, hout, ih]
        · simp at ih

/-! ## Lemmas on the codec -/

namespace rle

theorem zeroRun_le (cap : Nat) (dat : Bytes) : zeroRun cap dat ≤ cap ∧ zeroRun cap dat ≤ dat.length := by
  induction cap generalizing dat with
  | zero => simp [zeroRun]
  | succ cap ih =>
    cases dat with
    | nil => simp [zeroRun]
    | cons b rest =>
      simp only [zeroRun]
      split
      · have := ih rest
        simp only [List.length_cons]
        omega
      · simp

theorem take_zeroRun (cap : Nat) (dat : Bytes) :
    dat.take (zeroRun cap dat) = List.replicate (zeroRun cap dat) 0 := by
  induction cap generalizing dat with
  | zero => simp [zeroRun]
  | succ cap ih =>
    cases dat with
    | nil => simp [zeroRun]
    | cons b rest =>
      simp only [zeroRun]
      split
      · rename_i hb
        simp [List.take_succ_cons, List.replicate_succ, ih rest, hb]
      · simp

theorem decompressLoop_byte (b : Byte) (rest : Bytes) (hb : b ≠ token) :
    decompressLoop (b :: rest) = (decompressLoop rest).map (fun out => b :: out) := by
  cases rest with
  | nil => simp [decompressLoop, hb]
  | cons x rest => simp [decompressLoop, hb]

theorem compressChunk_pos (dat : Bytes) (hne : dat ≠ []) : 1 ≤ (compressChunk dat).2 := by
  unfold compressChunk
  split
  · simp
  · split
    · rename_i h
      cases dat with
      | nil => simp at hne
      | cons b rest =>
        simp at h
        simp [zeroRun, h.2.1]
    · split
      · simp
      · split <;> simp

theorem zeroRun_short (dat : Bytes) (hrun : ¬ List.replicate 251 (0 : Byte) <:+: dat) :
    zeroRun 255 dat ≤ 250 := by
  by_contra hgt
  apply hrun
  have h1 : dat.take 251 = List.replicate 251 0 := by
    have h2 := congrArg (List.take 251) (take_zeroRun 255 dat)
    rw [List.take_take, List.take_replicate] at h2
    have e1 : min 251 (zeroRun 255 dat) = 251 := by omega
    rw [e1] at h2
    exact h2
  rw [← h1]
  exact (List.take_prefix 251 dat).isInfix

theorem zeroRun_code (j : Nat) (hj : j ≤ 250) :
    (Fin.ofNat (j + 2) : Byte) ≠ emptyShaToken
    ∧ (Fin.ofNat (j + 2) : Byte) ≠ emptyListShaToken
    ∧ (Fin.ofNat (j + 2) : Byte) ≠ tokenToken
    ∧ ((Fin.ofNat (j + 2) : Byte) - 2).val = j := by
  have hv : (Fin.ofNat (j + 2) : Byte).val = j + 2 := by
    simp only [Fin.ofNat, Nat.reduceAdd]
    omega
  refine ⟨?_, ?_, ?_, ?_⟩
  · intro h
    have := congrArg Fin.val h
    rw [hv] at this
    simp [emptyShaToken] at this
    omega
  · intro h
    have := congrArg Fin.val h
    rw [hv] at this
    simp [emptyListShaToken] at this
    omega
  · intro h
    have := congrArg Fin.val h
    rw [hv] at this
    simp [tokenToken] at this
    omega
  · rw [Fin.sub_def]
    simp only [hv]
    simp
    omega

theorem decompressLoop_pair (x : Byte) (rest : Bytes) :
    decompressLoop (token :: x :: rest) =
      (decompressLoop rest).map (fun out =>
        (if x = emptyShaToken then empty
         else if x = emptyListShaToken then emptyList
         else if x = tokenToken then [token]
         else List.replicate (x - 2).val 0) ++ out) := by
  rw [decompressLoop, if_pos rfl]

/-- What one chunk decodes to: the input bytes it consumed. -/
theorem compressChunk_decodes (dat : Bytes) (hne : dat ≠ [])
    (hrun : ¬ List.replicate 251 (0 : Byte) <:+: dat) (rest : Bytes) :
    decompressLoop ((compressChunk dat).1 ++ rest) =
      (decompressLoop rest).map (fun out => dat.take (compressChunk dat).2 ++ out) := by
  cases dat with
  | nil => exact absurd rfl hne
  | cons b tail =>
    unfold compressChunk
    split
    · rename_i htok
      have hb : b = token := by simpa using htok
      subst hb
      show decompressLoop (token :: tokenToken :: rest) = _
      rw [decompressLoop_pair]
      have h1 : tokenToken ≠ emptyShaToken := by decide
      have h2 : tokenToken ≠ emptyListShaToken := by decide
      simp only [h1, h2, if_false, if_true, List.take_succ_cons, List.take_zero]
    · rename_i hnt
      have hb : b ≠ token := by simpa using hnt
      split
      · obtain ⟨c1, c2, c3, c4⟩ := zeroRun_code _ (zeroRun_short (b :: tail) hrun)
        show decompressLoop (token :: Fin.ofNat (zeroRun 255 (b :: tail) + 2) :: rest) = _
        rw [decompressLoop_pair]
        simp only [c1, c2, c3, c4, if_false]
        rw [take_zeroRun 255 (b :: tail)]
      · split
        · rename_i he
          show decompressLoop (token :: emptyShaToken :: rest) = _
          rw [decompressLoop_pair]
          simp only [if_true, he.2.2]
        · split
          · rename_i he
            have hx : emptyListShaToken ≠ emptyShaToken := by decide
            show decompressLoop (token :: emptyListShaToken :: rest) = _
            rw [decompressLoop_pair]
            simp only [hx, if_false, if_true, he.2.2]
          · show decompressLoop (b :: rest) = _
            rw [decompressLoop_byte b rest hb]
            simp only [List.take_succ_cons, List.take_zero, List.cons_append, List.nil_append]

theorem decompressLoop_compressLoop (fuel : Nat) (dat : Bytes) (hfuel : dat.length ≤ fuel)
    (hrun : ¬ List.replicate 251 (0 : Byte) <:+: dat) :
    decompressLoop (compressLoop fuel dat) = some dat := by
  induction fuel generalizing dat with
  | zero =>
    have : dat = [] := List.length_eq_zero.mp (Nat.le_zero.mp hfuel)
    subst this
    rfl
  | succ fuel ih =>
    by_cases hne : dat = []
    · subst hne
      rfl
    · have hpos := compressChunk_pos dat hne
      have hrest : decompressLoop (compressLoop fuel (dat.drop (compressChunk dat).2))
          = some (dat.drop (compressChunk dat).2) := by
        apply ih
        · have hlen : 0 < dat.length := List.length_pos.mpr hne
          simp only [List.length_drop]
          omega
        · intro hinf
          exact hrun (hinf.trans (List.drop_suffix _ dat).isInfix)
      rw [compressLoop, if_neg hne, compressChunk_decodes dat hne hrun, hrest]
      simp only [Option.map_some', List.take_append_drop]

/-- Away from runs of 251 zero bytes, decoding what `Compress` produced gives
the value back. -/
theorem Decompress_Compress (v : Bytes) (hrun : ¬ List.replicate 251 (0 : Byte) <:+: v) :
    Decompress (Compress v) = (bufferBytes v, none) := by
  unfold Decompress Compress
  rw [decompressLoop_compressLoop v.length v (le_refl _) hrun]

/-- Fuel beyond the length of the input changes nothing: `dat.length` chunks
are enough for the loop of `Compress` to reach the end of `dat`. -/
theorem compressLoop_fuel (f g : Nat) (dat : Bytes) (hf : dat.length ≤ f) (hg : dat.length ≤ g) :
    compressLoop f dat = compressLoop g dat := by
  induction f generalizing g dat with
  | zero =>
    have : dat = [] := List.length_eq_zero.mp (Nat.le_zero.mp hf)
    subst this
    cases g <;> simp [compressLoop]
  | succ f ih =>
    by_cases hne : dat = []
    · subst hne
      cases g <;> simp [compressLoop]
    · have hlen : 0 < dat.length := List.length_pos.mpr hne
      have hpos := compressChunk_pos dat hne
      cases g with
      | zero => omega
      | succ g =>
        rw [compressLoop, compressLoop, if_neg hne, if_neg hne]
        congr 1
        apply ih
        · simp only [List.length_drop]
          omega
        · simp only [List.length_drop]
          omega

end rle

/-! ## Lemmas on the facade -/

theorem Put_db {σ : Type} (E : LevelDB σ) (c : Codec) (clk : Clock) (self : LDBDatabase σ)
    (k v : Bytes) : (Put E c clk self k v).1.db = (E.Put self.db k (c.Compress v)).1 := rfl

theorem Put_err {σ : Type} (E : LevelDB σ) (c : Codec) (clk : Clock) (self : LDBDatabase σ)
    (k v : Bytes) : (Put E c clk self k v).2 = (E.Put self.db k (c.Compress v)).2 := rfl

theorem Delete_db {σ : Type} (E : LevelDB σ) (clk : Clock) (self : LDBDatabase σ)
    (k : Bytes) : (Delete E clk self k).1.db = (E.Delete self.db k).1 := rfl

theorem Delete_err {σ : Type} (E : LevelDB σ) (clk : Clock) (self : LDBDatabase σ)
    (k : Bytes) : (Delete E clk self k).2 = (E.Delete self.db k).2 := rfl

theorem Get_db {σ : Type} (E : LevelDB σ) (c : Codec) (clk : Clock) (self : LDBDatabase σ)
    (k : Bytes) : (Get E c clk self k).1.db = self.db := by
  unfold Get
  cases h : (E.Get self.db k).2 <;> simp only [h]

/-- The error path of `Get`: whatever error the engine reports. -/
theorem Get_of_err {σ : Type} (E : LevelDB σ) (c : Codec) (clk : Clock) (self : LDBDatabase σ)
    (k : Bytes) (e : Error) (h : (E.Get self.db k).2 = some e) :
    Get E c clk self k =
      ({ self with MissMeter := self.MissMeter.map (fun m => Meter.Mark m 1),
                   GetTimer := self.GetTimer.map
                     (fun t => Timer.UpdateSince t clk.start clk.stop) },
        (none, some e)) := by
  unfold Get
  simp only [h]

/-- The path of `Get` on which the engine returns bytes. -/
theorem Get_of_ok {σ : Type} (E : LevelDB σ) (c : Codec) (clk : Clock) (self : LDBDatabase σ)
    (k : Bytes) (h : (E.Get self.db k).2 = none) :
    Get E c clk self k =
      ({ self with ReadMeter := self.ReadMeter.map
                     (fun m => Meter.Mark m ((E.Get self.db k).1.length : Int)),
                   GetTimer := self.GetTimer.map
                     (fun t => Timer.UpdateSince t clk.start clk.stop) },
        c.Decompress (E.Get self.db k).1) := by
  unfold Get
  simp only [h]

/-- Calls that neither overwrite nor delete `k` leave what the engine holds
for `k` as it was. -/
theorem runOps_get {σ : Type} (E : LevelDB σ) (hE : E.Faithful) (c : Codec) (k : Bytes)
    (ops : List Op) (self : LDBDatabase σ) (hops : ∀ op ∈ ops, op.writes k = false) :
    E.Get (runOps E c self ops).db k = E.Get self.db k := by
  induction ops generalizing self with
  | nil => rfl
  | cons op rest ih =>
    have hop : op.writes k = false := hops op (List.mem_cons_self _ _)
    have hrest : ∀ o ∈ rest, o.writes k = false :=
      fun o ho => hops o (List.mem_cons_of_mem _ ho)
    rw [runOps, ih _ hrest]
    cases op with
    | put clk key value =>
      have hne : key ≠ k := by simpa [Op.writes] using hop
      simp only [Op.run, Put_db]
      exact hE.get_put_other _ _ _ _ hne
    | get clk key =>
      simp only [Op.run, Get_db]
    | del clk key =>
      have hne : key ≠ k := by simpa [Op.writes] using hop
      simp only [Op.run, Delete_db]
      exact hE.get_delete_other _ _ _ hne

/-! ## Properties of the facade -/

/-- On an engine that stores what it is given, when `Put(k, v)` returns no error
and the calls that follow neither overwrite nor delete `k`, `Get(k)` returns
`Decompress(Compress(v))`. -/
theorem Get_after_Put_decodes {σ : Type} (E : LevelDB σ) (hE : E.Faithful) (c : Codec)
    (clk clk2 : Clock) (self : LDBDatabase σ) (k v : Bytes) (ops : List Op)
    (hput : (Put E c clk self k v).2 = none)
    (hops : ∀ op ∈ ops, op.writes k = false) :
    (Get E c clk2 (runOps E c (Put E c clk self k v).1 ops) k).2
        = c.Decompress (c.Compress v) := by
  have hget : E.Get (runOps E c (Put E c clk self k v).1 ops).db k = (c.Compress v, none) := by
    rw [runOps_get E hE c k ops _ hops, Put_db]
    exact hE.get_put_same _ _ _ (by rw [← Put_err E c clk]; exact hput)
  rw [Get_of_ok E c clk2 _ k (by rw [hget])]
  simp only [hget]

/-- With the codec of package `compression/rle`, a value that holds no run of
251 zero bytes comes back from `Get` as it was written (as the nil slice when
it is empty). -/
theorem Get_after_Put_short_runs {σ : Type} (E : LevelDB σ) (hE : E.Faithful)
    (clk clk2 : Clock) (self : LDBDatabase σ) (k v : Bytes) (ops : List Op)
    (hput : (Put E rleCodec clk self k v).2 = none)
    (hops : ∀ op ∈ ops, op.writes k = false)
    (hrun : ¬ List.replicate 251 (0 : Byte) <:+: v) :
    (Get E rleCodec clk2 (runOps E rleCodec (Put E rleCodec clk self k v).1 ops) k).2
        = (rle.bufferBytes v, none) := by
  rw [Get_after_Put_decodes E hE rleCodec clk clk2 self k v ops hput hops]
  exact rle.Decompress_Compress v hrun

set_option maxRecDepth 100000 in
/-- C1. Round trip across the compression boundary, at a value `v` of 253 zero
bytes on an engine that stores what it is given: `Put(k, v)` returns no error
and stores `rle.Compress(v)`, the two bytes `0xfe 0xff`; `Get(k)` returns
`rle.Decompress` of them, the single byte `0xfe` with a nil error, which is not
`v`. For the empty value `Get` returns the nil slice with a nil error. -/
theorem Get_after_Put_loses_zero_run :
    (Put memdb rleCodec ⟨0, 1⟩ (bare "chaindata" MemDB.empty) (ascii "k")
        (List.replicate 253 0)).2 = none
    ∧ rle.Compress (List.replicate 253 0) = [0xfe, 0xff]
    ∧ memdb.Get
        (Put memdb rleCodec ⟨0, 1⟩ (bare "chaindata" MemDB.empty) (ascii "k")
          (List.replicate 253 0)).1.db (ascii "k") = ([0xfe, 0xff], none)
    ∧ rle.Decompress [0xfe, 0xff] = (some [0xfe], none)
    ∧ (Get memdb rleCodec ⟨1, 2⟩
        (Put memdb rleCodec ⟨0, 1⟩ (bare "chaindata" MemDB.empty) (ascii "k")
          (List.replicate 253 0)).1 (ascii "k")).2 = (some [0xfe], none)
    ∧ (Get memdb rleCodec ⟨1, 2⟩
        (Put memdb rleCodec ⟨0, 1⟩ (bare "chaindata" MemDB.empty) (ascii "k")
          (List.replicate 253 0)).1 (ascii "k")).2 ≠ (some (List.replicate 253 0), none)
    ∧ (Get memdb rleCodec ⟨1, 2⟩
        (Put memdb rleCodec ⟨0, 1⟩ (bare "chaindata" MemDB.empty) (ascii "a") []).1
        (ascii "a")).2 = (none, none) := by
  decide

/-- C2. `Get` on a closed session with a miss meter attached: the engine answers
`ErrClosed`, which is not `ErrNotFound`; `Get` surfaces it and the miss meter
is marked once with 1 all the same. -/
theorem Get_marks_miss_on_ErrClosed :
    memdb.Get (Close memdb (metered "chaindata" MemDB.empty)).1.db (ascii "x")
        = ([], some Error.ErrClosed)
    ∧ Error.ErrClosed ≠ Error.ErrNotFound
    ∧ (Get memdb runLengthCodec ⟨0, 1⟩ (Close memdb (metered "chaindata" MemDB.empty)).1
        (ascii "x")).2 = (none, some Error.ErrClosed)
    ∧ (Close memdb (metered "chaindata" MemDB.empty)).1.MissMeter = some []
    ∧ (Get memdb runLengthCodec ⟨0, 1⟩ (Close memdb (metered "chaindata" MemDB.empty)).1
        (ascii "x")).1.MissMeter = some [1] := by
  decide

/-- C3. Miss counting: when the engine reports `k` as not found, `Get` returns a
nil value with that very error, marks the miss meter once with 1, and marks
neither byte meter; this is so in particular for a key written and then
deleted on an engine that stores what it is given. -/
theorem Get_absent_marks_miss {σ : Type} (E : LevelDB σ) (hE : E.Faithful) (c : Codec)
    (clk : Clock) (self : LDBDatabase σ) (k : Bytes) :
    ((E.Get self.db k).2 = some Error.ErrNotFound →
      (Get E c clk self k).2 = (none, some Error.ErrNotFound)
      ∧ (Get E c clk self k).1.MissMeter = self.MissMeter.map (fun m => m ++ [1])
      ∧ (Get E c clk self k).1.ReadMeter = self.ReadMeter
      ∧ (Get E c clk self k).1.WriteMeter = self.WriteMeter)
    ∧ (∀ (v : Bytes) (clk1 clk2 : Clock),
        (Delete E clk2 (Put E c clk1 self k v).1 k).2 = none →
        (Get E c clk (Delete E clk2 (Put E c clk1 self k v).1 k).1 k).2
            = (none, some Error.ErrNotFound)
        ∧ (Get E c clk (Delete E clk2 (Put E c clk1 self k v).1 k).1 k).1.MissMeter
            = self.MissMeter.map (fun m => m ++ [1])
        ∧ (Get E c clk (Delete E clk2 (Put E c clk1 self k v).1 k).1 k).1.ReadMeter
            = self.ReadMeter) := by
  have key : ∀ (h : LDBDatabase σ), (E.Get h.db k).2 = some Error.ErrNotFound →
      (Get E c clk h k).2 = (none, some Error.ErrNotFound)
      ∧ (Get E c clk h k).1.MissMeter = h.MissMeter.map (fun m => m ++ [1])
      ∧ (Get E c clk h k).1.ReadMeter = h.ReadMeter
      ∧ (Get E c clk h k).1.WriteMeter = h.WriteMeter := by
    intro h habs
    rw [Get_of_err E c clk h k _ habs]
    exact ⟨rfl, rfl, rfl, rfl⟩
  refine ⟨key self, ?_⟩
  intro v clk1 clk2 hdel
  have habs : (E.Get (Delete E clk2 (Put E c clk1 self k v).1 k).1.db k).2
      = some Error.ErrNotFound := by
    rw [Delete_db]
    exact hE.get_delete_same _ _ (by rw [← Delete_err E clk2]; exact hdel)
  obtain ⟨h1, h2, h3, _⟩ := key _ habs
  exact ⟨h1, h2, h3⟩

/-- The scenario `Put("x", "hello")`, `Delete("x")`, `Get("x")` on a fresh handle
with every hook attached: the result is `(nil, ErrNotFound)`, the miss meter
holds the single mark 1 and counts 1, and the bytes-read meter holds no mark;
a key never written behaves alike. -/
theorem Get_absent_marks_miss_witness :
    (memdb.Get (metered "chaindata" MemDB.empty).db (ascii "y")).2 = some Error.ErrNotFound
    ∧ (Get memdb runLengthCodec ⟨0, 1⟩ (metered "chaindata" MemDB.empty) (ascii "y")).2
        = (none, some Error.ErrNotFound)
    ∧ (Delete memdb ⟨2, 3⟩
        (Put memdb runLengthCodec ⟨1, 2⟩ (metered "chaindata" MemDB.empty)
          (ascii "x") (ascii "hello")).1 (ascii "x")).2 = none
    ∧ (Get memdb runLengthCodec ⟨3, 4⟩
        (Delete memdb ⟨2, 3⟩
          (Put memdb runLengthCodec ⟨1, 2⟩ (metered "chaindata" MemDB.empty)
            (ascii "x") (ascii "hello")).1 (ascii "x")).1 (ascii "x")).2
        = (none, some Error.ErrNotFound)
    ∧ (Get memdb runLengthCodec ⟨3, 4⟩
        (Delete memdb ⟨2, 3⟩
          (Put memdb runLengthCodec ⟨1, 2⟩ (metered "chaindata" MemDB.empty)
            (ascii "x") (ascii "hello")).1 (ascii "x")).1 (ascii "x")).1.MissMeter
        = some [1]
    ∧ Meter.Count [1] = 1
    ∧ (Get memdb runLengthCodec ⟨3, 4⟩
        (Delete memdb ⟨2, 3⟩
          (Put memdb runLengthCodec ⟨1, 2⟩ (metered "chaindata" MemDB.empty)
            (ascii "x") (ascii "hello")).1 (ascii "x")).1 (ascii "x")).1.ReadMeter
        = some [] :=
  ⟨by decide,
    ((Get_absent_marks_miss memdb memdb_faithful runLengthCodec ⟨0, 1⟩
      (metered "chaindata" MemDB.empty) (ascii "y")).1 (by decide)).1,
    by decide,
    ((Get_absent_marks_miss memdb memdb_faithful runLengthCodec ⟨3, 4⟩
      (metered "chaindata" MemDB.empty) (ascii "x")).2 (ascii "hello") ⟨1, 2⟩ ⟨2, 3⟩
        (by decide)).1,
    ((Get_absent_marks_miss memdb memdb_faithful runLengthCodec ⟨3, 4⟩
      (metered "chaindata" MemDB.empty) (ascii "x")).2 (ascii "hello") ⟨1, 2⟩ ⟨2, 3⟩
        (by decide)).2.1,
    by decide,
    ((Get_absent_marks_miss memdb memdb_faithful runLengthCodec ⟨3, 4⟩
      (metered "chaindata" MemDB.empty) (ascii "x")).2 (ascii "hello") ⟨1, 2⟩ ⟨2, 3⟩
        (by decide)).2.2⟩

/-- C4. The error policy of `NewLDBDatabase`: it opens once, then calls
`RecoverFile` exactly when that open failed with a corruption error, and never
twice. A non-corruption failure of the open is returned as it is with no
handle; a failed recovery returns recovery's error with no handle; a successful
open, or a successful recovery, returns a handle on that session, no hook
attached, with a nil error. -/
theorem NewLDBDatabase_error_policy {W σ : Type} (L : Driver W σ) (limit : Nat) (w : W)
    (file : String) :
    (NewLDBDatabase L limit w file).calls
        = Call.OpenFile file limit ::
          (if iscorrupted (L.OpenFile w file limit).2.err then [Call.RecoverFile file] else [])
    ∧ (Call.RecoverFile file ∈ (NewLDBDatabase L limit w file).calls ↔
        ∃ e, (L.OpenFile w file limit).2 = Session.fail e ∧ e.isCorrupted = true)
    ∧ (NewLDBDatabase L limit w file).calls.count (Call.RecoverFile file) ≤ 1
    ∧ (∀ e, (L.OpenFile w file limit).2 = Session.fail e → e.isCorrupted = false →
        (NewLDBDatabase L limit w file).handle = none
        ∧ (NewLDBDatabase L limit w file).err = some e)
    ∧ (∀ e e2, (L.OpenFile w file limit).2 = Session.fail e → e.isCorrupted = true →
        (L.RecoverFile (L.OpenFile w file limit).1 file).2 = Session.fail e2 →
        (NewLDBDatabase L limit w file).handle = none
        ∧ (NewLDBDatabase L limit w file).err = some e2)
    ∧ (∀ db, (L.OpenFile w file limit).2 = Session.ok db →
        (NewLDBDatabase L limit w file).handle = some (bare file db)
        ∧ (NewLDBDatabase L limit w file).err = none)
    ∧ (∀ e db, (L.OpenFile w file limit).2 = Session.fail e → e.isCorrupted = true →
        (L.RecoverFile (L.OpenFile w file limit).1 file).2 = Session.ok db →
        (NewLDBDatabase L limit w file).handle = some (bare file db)
        ∧ (NewLDBDatabase L limit w file).err = none) := by
  unfold NewLDBDatabase
  cases ho : (L.OpenFile w file limit).2 with
  | ok db =>
    simp [ho, Session.err, iscorrupted, bare]
  | fail e =>
    cases hc : e.isCorrupted with
    | false =>
      simp [ho, Session.err, iscorrupted, hc]
      refine ⟨?_, ?_⟩
      · intro e1 e2 he h1
        rw [← he, hc] at h1
        exact absurd h1 (by decide)
      · intro e1 db he h1
        rw [← he, hc] at h1
        exact absurd h1 (by decide)
    | true =>
      cases hr : (L.RecoverFile (L.OpenFile w file limit).1 file).2 with
      | ok db => simp [ho, Session.err, iscorrupted, hc, hr, bare]
      | fail e2 => simp [ho, Session.err, iscorrupted, hc, hr]

/-- The four outcomes on the reference driver: a locked location (the open's
own error, no recovery), a corrupted location that recovery cannot repair
(recovery's error), a healthy location, and a corrupted location that recovery
repairs. -/
theorem NewLDBDatabase_error_policy_witness :
    ((memDriver.OpenFile Disk.locked "chaindata" OpenFileLimit).2
        = Session.fail (Error.Other "resource temporarily unavailable")
      ∧ (NewLDBDatabase memDriver OpenFileLimit Disk.locked "chaindata").handle = none
      ∧ (NewLDBDatabase memDriver OpenFileLimit Disk.locked "chaindata").err
          = some (Error.Other "resource temporarily unavailable"))
    ∧ ((memDriver.OpenFile (Disk.corrupted false []) "chaindata" OpenFileLimit).2
        = Session.fail (Error.ErrCorrupted "manifest")
      ∧ (NewLDBDatabase memDriver OpenFileLimit (Disk.corrupted false []) "chaindata").handle
          = none
      ∧ (NewLDBDatabase memDriver OpenFileLimit (Disk.corrupted false []) "chaindata").err
          = some (Error.Other "recovery failed"))
    ∧ ((memDriver.OpenFile (Disk.healthy [([1], [2])]) "chaindata" OpenFileLimit).2
        = Session.ok { closed := false, data := [([1], [2])] }
      ∧ (NewLDBDatabase memDriver OpenFileLimit (Disk.healthy [([1], [2])]) "chaindata").handle
          = some (bare "chaindata" { closed := false, data := [([1], [2])] }))
    ∧ ((memDriver.RecoverFile (Disk.corrupted true [([1], [2])]) "chaindata").2
        = Session.ok { closed := false, data := [([1], [2])] }
      ∧ (NewLDBDatabase memDriver OpenFileLimit (Disk.corrupted true [([1], [2])])
          "chaindata").handle
          = some (bare "chaindata" { closed := false, data := [([1], [2])] })
      ∧ (NewLDBDatabase memDriver OpenFileLimit (Disk.corrupted true [([1], [2])])
          "chaindata").calls
          = [Call.OpenFile "chaindata" 64, Call.RecoverFile "chaindata"]) :=
  ⟨⟨rfl,
    (NewLDBDatabase_error_policy memDriver OpenFileLimit Disk.locked "chaindata").2.2.2.1
      _ rfl rfl⟩,
   ⟨rfl,
    (NewLDBDatabase_error_policy memDriver OpenFileLimit (Disk.corrupted false [])
      "chaindata").2.2.2.2.1 _ _ rfl rfl rfl⟩,
   ⟨rfl,
    ((NewLDBDatabase_error_policy memDriver OpenFileLimit (Disk.healthy [([1], [2])])
      "chaindata").2.2.2.2.2.1 _ rfl).1⟩,
   ⟨rfl,
    ((NewLDBDatabase_error_policy memDriver OpenFileLimit (Disk.corrupted true [([1], [2])])
      "chaindata").2.2.2.2.2.2 _ _ rfl rfl rfl).1,
    (NewLDBDatabase_error_policy memDriver OpenFileLimit (Disk.corrupted true [([1], [2])])
      "chaindata").1⟩⟩

/-- C5. Hooks are observers only: two handles on the same engine state, whatever
hooks each has attached and whatever the clock reads, get from `Put`, `Get`
and `Delete` the same returned value and error and the same engine state
afterwards; with no hook attached the results are the engine's (and the
codec's) own. -/
theorem hooks_are_observers {σ : Type} (E : LevelDB σ) (c : Codec) (clk1 clk2 : Clock)
    (h1 h2 : LDBDatabase σ) (k v : Bytes) (hdb : h1.db = h2.db) :
    (Put E c clk1 h1 k v).2 = (Put E c clk2 h2 k v).2
    ∧ (Put E c clk1 h1 k v).1.db = (Put E c clk2 h2 k v).1.db
    ∧ (Get E c clk1 h1 k).2 = (Get E c clk2 h2 k).2
    ∧ (Get E c clk1 h1 k).1.db = (Get E c clk2 h2 k).1.db
    ∧ (Delete E clk1 h1 k).2 = (Delete E clk2 h2 k).2
    ∧ (Delete E clk1 h1 k).1.db = (Delete E clk2 h2 k).1.db
    ∧ (Put E c clk1 h1 k v).2 = (E.Put h1.db k (c.Compress v)).2
    ∧ (Delete E clk1 h1 k).2 = (E.Delete h1.db k).2
    ∧ ((E.Get h1.db k).2 = none → (Get E c clk1 h1 k).2 = c.Decompress (E.Get h1.db k).1)
    ∧ (∀ e, (E.Get h1.db k).2 = some e → (Get E c clk1 h1 k).2 = (none, some e)) := by
  have hget : ∀ (clk : Clock) (h : LDBDatabase σ),
      (Get E c clk h k).2 =
        (match (E.Get h.db k).2 with
          | some e => (none, some e)
          | none => c.Decompress (E.Get h.db k).1) := by
    intro clk h
    cases hg : (E.Get h.db k).2 with
    | none => rw [Get_of_ok E c clk h k hg]
    | some e => rw [Get_of_err E c clk h k e hg]
  refine ⟨?_, ?_, ?_, ?_, ?_, ?_, rfl, rfl, ?_, ?_⟩
  · rw [Put_err, Put_err, hdb]
  · rw [Put_db, Put_db, hdb]
  · rw [hget, hget, hdb]
  · rw [Get_db, Get_db, hdb]
  · rw [Delete_err, Delete_err, hdb]
  · rw [Delete_db, Delete_db, hdb]
  · intro hg
    rw [Get_of_ok E c clk1 h1 k hg]
  · intro e hg
    rw [Get_of_err E c clk1 h1 k e hg]

/-- A handle with no hook and one with all six, on the same store holding
`"x" ↦ Compress("hello")`: the three operations agree. -/
theorem hooks_are_observers_witness :
    (bare "chaindata" (MemDB.mk false [(ascii "x", runLengthCompress (ascii "hello"))])).db
        = (metered "chaindata"
            (MemDB.mk false [(ascii "x", runLengthCompress (ascii "hello"))])).db
    ∧ (Get memdb runLengthCodec ⟨0, 1⟩
        (bare "chaindata" (MemDB.mk false [(ascii "x", runLengthCompress (ascii "hello"))]))
        (ascii "x")).2
      = (Get memdb runLengthCodec ⟨5, 9⟩
        (metered "chaindata" (MemDB.mk false [(ascii "x", runLengthCompress (ascii "hello"))]))
        (ascii "x")).2
    ∧ (Get memdb runLengthCodec ⟨0, 1⟩
        (bare "chaindata" (MemDB.mk false [(ascii "x", runLengthCompress (ascii "hello"))]))
        (ascii "x")).2 = (some (ascii "hello"), none) :=
  ⟨rfl,
   (hooks_are_observers memdb runLengthCodec ⟨0, 1⟩ ⟨5, 9⟩
      (bare "chaindata" (MemDB.mk false [(ascii "x", runLengthCompress (ascii "hello"))]))
      (metered "chaindata" (MemDB.mk false [(ascii "x", runLengthCompress (ascii "hello"))]))
      (ascii "x") (ascii "world") rfl).2.2.1,
   by decide⟩

/-- C6. Decode failure is not a miss: when the engine holds for `k` bytes `dat`
on which `Decompress` fails with an error `e`, `Get` returns what `Decompress`
returned, error `e` included; `e` being another error than `ErrNotFound`, the
returned error is not `ErrNotFound`; the miss meter is not marked. -/
theorem Get_decode_failure_not_miss {σ : Type} (E : LevelDB σ) (c : Codec) (clk : Clock)
    (self : LDBDatabase σ) (k dat : Bytes) (e : Error)
    (hgot : E.Get self.db k = (dat, none))
    (hbad : (c.Decompress dat).2 = some e)
    (hne : e ≠ Error.ErrNotFound) :
    (Get E c clk self k).2 = c.Decompress dat
    ∧ (Get E c clk self k).2.2 = some e
    ∧ (Get E c clk self k).2.2 ≠ some Error.ErrNotFound
    ∧ (Get E c clk self k).1.MissMeter = self.MissMeter := by
  have hres : Get E c clk self k =
      ({ self with ReadMeter := self.ReadMeter.map
                     (fun m => Meter.Mark m ((E.Get self.db k).1.length : Int)),
                   GetTimer := self.GetTimer.map
                     (fun t => Timer.UpdateSince t clk.start clk.stop) },
        c.Decompress (E.Get self.db k).1) :=
    Get_of_ok E c clk self k (by rw [hgot])
  rw [hres, hgot]
  refine ⟨rfl, hbad, ?_, rfl⟩
  simp only [hbad]
  intro h
  exact hne (Option.some.inj h)

/-- A stored payload of odd length, which the run-length codec cannot decode:
`Get` returns the codec's error and the miss meter stays empty. -/
theorem Get_decode_failure_not_miss_witness :
    memdb.Get (metered "chaindata" (MemDB.mk false [(ascii "x", [7])])).db (ascii "x")
        = ([7], none)
    ∧ (runLengthCodec.Decompress [7]).2 = some (Error.Other "rle: truncated payload")
    ∧ Error.Other "rle: truncated payload" ≠ Error.ErrNotFound
    ∧ (Get memdb runLengthCodec ⟨0, 1⟩ (metered "chaindata" (MemDB.mk false [(ascii "x", [7])]))
        (ascii "x")).2 = (none, some (Error.Other "rle: truncated payload"))
    ∧ (Get memdb runLengthCodec ⟨0, 1⟩ (metered "chaindata" (MemDB.mk false [(ascii "x", [7])]))
        (ascii "x")).1.MissMeter = some [] :=
  ⟨by decide, by decide, by decide,
   (Get_decode_failure_not_miss memdb runLengthCodec ⟨0, 1⟩
      (metered "chaindata" (MemDB.mk false [(ascii "x", [7])])) (ascii "x") [7]
      (Error.Other "rle: truncated payload") (by decide) (by decide) (by decide)).1,
   (Get_decode_failure_not_miss memdb runLengthCodec ⟨0, 1⟩
      (metered "chaindata" (MemDB.mk false [(ascii "x", [7])])) (ascii "x") [7]
      (Error.Other "rle: truncated payload") (by decide) (by decide) (by decide)).2.2.2⟩

/-- C7. The byte meters measure the compressed size: with both byte meters
attached, `Put(k, v)` marks the bytes-written meter once with
`len(Compress(v))` and leaves the bytes-read meter alone; a following `Get(k)`
that finds bytes `dat` marks the bytes-read meter once with `len(dat)` and
leaves the bytes-written meter alone; on an engine that stores what it is
given, after a successful `Put`, the amount read is `len(Compress(v))`, the
amount written. -/
theorem byte_meters_measure_compressed {σ : Type} (E : LevelDB σ) (c : Codec)
    (clk1 clk2 : Clock) (self : LDBDatabase σ) (k v : Bytes) (wm rm : Meter)
    (hw : self.WriteMeter = some wm) (hr : self.ReadMeter = some rm) :
    (Put E c clk1 self k v).1.WriteMeter = some (wm ++ [((c.Compress v).length : Int)])
    ∧ (Put E c clk1 self k v).1.ReadMeter = some rm
    ∧ (∀ dat, E.Get (Put E c clk1 self k v).1.db k = (dat, none) →
        (Get E c clk2 (Put E c clk1 self k v).1 k).1.ReadMeter
            = some (rm ++ [(dat.length : Int)])
        ∧ (Get E c clk2 (Put E c clk1 self k v).1 k).1.WriteMeter
            = some (wm ++ [((c.Compress v).length : Int)]))
    ∧ (E.Faithful → (Put E c clk1 self k v).2 = none →
        (Get E c clk2 (Put E c clk1 self k v).1 k).1.ReadMeter
            = some (rm ++ [((c.Compress v).length : Int)])) := by
  have hput : (Put E c clk1 self k v).1.WriteMeter
      = some (wm ++ [((c.Compress v).length : Int)]) := by
    simp [Put, hw, Meter.Mark]
  have hputr : (Put E c clk1 self k v).1.ReadMeter = some rm := by
    simp [Put, hr]
  have hfound : ∀ dat, E.Get (Put E c clk1 self k v).1.db k = (dat, none) →
      (Get E c clk2 (Put E c clk1 self k v).1 k).1.ReadMeter
          = some (rm ++ [(dat.length : Int)])
      ∧ (Get E c clk2 (Put E c clk1 self k v).1 k).1.WriteMeter
          = some (wm ++ [((c.Compress v).length : Int)]) := by
    intro dat hgot
    rw [Get_of_ok E c clk2 _ k (by rw [hgot])]
    simp only [hgot, hputr, hput, Option.map_some', Meter.Mark, and_self]
  refine ⟨hput, hputr, hfound, ?_⟩
  intro hE hok
  refine (hfound (c.Compress v) ?_).1
  rw [Put_db]
  exact hE.get_put_same _ _ _ (by rw [← Put_err E c clk1]; exact hok)

/-- Ten zero bytes, which the run-length codec stores in two: both meters mark 2. -/
theorem byte_meters_measure_compressed_witness :
    (metered "chaindata" MemDB.empty).WriteMeter = some []
    ∧ (metered "chaindata" MemDB.empty).ReadMeter = some []
    ∧ (Put memdb runLengthCodec ⟨0, 1⟩ (metered "chaindata" MemDB.empty) (ascii "k")
        (List.replicate 10 0)).2 = none
    ∧ (List.replicate 10 (0 : Byte)).length = 10
    ∧ (Put memdb runLengthCodec ⟨0, 1⟩ (metered "chaindata" MemDB.empty) (ascii "k")
        (List.replicate 10 0)).1.WriteMeter = some [2]
    ∧ (Get memdb runLengthCodec ⟨1, 2⟩
        (Put memdb runLengthCodec ⟨0, 1⟩ (metered "chaindata" MemDB.empty) (ascii "k")
          (List.replicate 10 0)).1 (ascii "k")).1.ReadMeter = some [2] :=
  ⟨rfl, rfl, by decide, by decide,
   (byte_meters_measure_compressed memdb runLengthCodec ⟨0, 1⟩ ⟨1, 2⟩
      (metered "chaindata" MemDB.empty) (ascii "k") (List.replicate 10 0) [] [] rfl rfl).1,
   (byte_meters_measure_compressed memdb runLengthCodec ⟨0, 1⟩ ⟨1, 2⟩
      (metered "chaindata" MemDB.empty) (ascii "k") (List.replicate 10 0) [] [] rfl rfl).2.2.2
      memdb_faithful (by decide)⟩

/-- C8. Idempotent delete: `Delete` returns the engine's own error and engine
state and touches no meter and no timer but its own. On an engine that stores
what it is given, deleting an absent key returns no error and leaves the store
as it was, and a `Get(k)` after a `Delete(k)` that returned no error returns
`(nil, ErrNotFound)`; on the reference engine this holds for every open store. -/
theorem Delete_idempotent {σ : Type} (E : LevelDB σ) (hE : E.Faithful) (c : Codec)
    (clk clk2 : Clock) (self : LDBDatabase σ) (k : Bytes) :
    ((Delete E clk self k).2 = (E.Delete self.db k).2
      ∧ (Delete E clk self k).1.db = (E.Delete self.db k).1
      ∧ (Delete E clk self k).1.MissMeter = self.MissMeter
      ∧ (Delete E clk self k).1.ReadMeter = self.ReadMeter
      ∧ (Delete E clk self k).1.WriteMeter = self.WriteMeter
      ∧ (Delete E clk self k).1.GetTimer = self.GetTimer
      ∧ (Delete E clk self k).1.PutTimer = self.PutTimer)
    ∧ ((E.Get self.db k).2 = some Error.ErrNotFound →
        (Delete E clk self k).2 = none ∧ (Delete E clk self k).1.db = self.db)
    ∧ ((Delete E clk self k).2 = none →
        (Get E c clk2 (Delete E clk self k).1 k).2 = (none, some Error.ErrNotFound))
    ∧ (∀ (h : LDBDatabase MemDB), h.db.closed = false →
        (Delete memdb clk h k).2 = none
        ∧ (Get memdb c clk2 (Delete memdb clk h k).1 k).2 = (none, some Error.ErrNotFound)) := by
  have hafter : ∀ {τ : Type} (F : LevelDB τ), F.Faithful → ∀ (h : LDBDatabase τ),
      (Delete F clk h k).2 = none →
      (Get F c clk2 (Delete F clk h k).1 k).2 = (none, some Error.ErrNotFound) := by
    intro τ F hF h hdel
    have habs : (F.Get (Delete F clk h k).1.db k).2 = some Error.ErrNotFound := by
      rw [Delete_db]
      exact hF.get_delete_same _ _ (by rw [← Delete_err F clk]; exact hdel)
    rw [Get_of_err F c clk2 _ k _ habs]
  refine ⟨⟨rfl, rfl, rfl, rfl, rfl, rfl, rfl⟩, ?_, hafter E hE self, ?_⟩
  · intro habs
    rw [Delete_err, Delete_db, hE.delete_absent _ _ habs]
    exact ⟨rfl, rfl⟩
  · intro h hopen
    have hdel : (Delete memdb clk h k).2 = none := by
      simp [Delete, memdb, hopen]
    exact ⟨hdel, hafter memdb memdb_faithful h hdel⟩

/-- Deleting `"y"`, absent from a store that holds `"x"`, returns nil and leaves
the store as it was; deleting `"x"` returns nil and a `Get("x")` after it
returns `(nil, ErrNotFound)`. -/
theorem Delete_idempotent_witness :
    (memdb.Get (metered "chaindata" (MemDB.mk false [(ascii "x", [1, 7])])).db (ascii "y")).2
        = some Error.ErrNotFound
    ∧ (Delete memdb ⟨0, 1⟩ (metered "chaindata" (MemDB.mk false [(ascii "x", [1, 7])]))
        (ascii "y")).2 = none
    ∧ (Delete memdb ⟨0, 1⟩ (metered "chaindata" (MemDB.mk false [(ascii "x", [1, 7])]))
        (ascii "y")).1.db = MemDB.mk false [(ascii "x", [1, 7])]
    ∧ (Delete memdb ⟨0, 1⟩ (metered "chaindata" (MemDB.mk false [(ascii "x", [1, 7])]))
        (ascii "x")).2 = none
    ∧ (Get memdb runLengthCodec ⟨1, 2⟩
        (Delete memdb ⟨0, 1⟩ (metered "chaindata" (MemDB.mk false [(ascii "x", [1, 7])]))
          (ascii "x")).1 (ascii "x")).2 = (none, some Error.ErrNotFound) :=
  ⟨by decide,
   ((Delete_idempotent memdb memdb_faithful runLengthCodec ⟨0, 1⟩ ⟨1, 2⟩
      (metered "chaindata" (MemDB.mk false [(ascii "x", [1, 7])])) (ascii "y")).2.1
      (by decide)).1,
   ((Delete_idempotent memdb memdb_faithful runLengthCodec ⟨0, 1⟩ ⟨1, 2⟩
      (metered "chaindata" (MemDB.mk false [(ascii "x", [1, 7])])) (ascii "y")).2.1
      (by decide)).2,
   by decide,
   (Delete_idempotent memdb memdb_faithful runLengthCodec ⟨0, 1⟩ ⟨1, 2⟩
      (metered "chaindata" (MemDB.mk false [(ascii "x", [1, 7])])) (ascii "x")).2.2.1
      (by decide)⟩

/-- C9. Timer correctness: with a put timer attached, one `Put` appends exactly
one sample to it, the elapsed time, whatever error the engine write returns;
the get and delete timers are left as they were; with no put timer attached
none is there afterwards. -/
theorem Put_records_one_sample {σ : Type} (E : LevelDB σ) (c : Codec) (clk : Clock)
    (self : LDBDatabase σ) (k v : Bytes) :
    (∀ t, self.PutTimer = some t →
        (Put E c clk self k v).1.PutTimer = some (t ++ [clk.stop - clk.start])
        ∧ ((Put E c clk self k v).1.PutTimer.map List.length) = some (t.length + 1))
    ∧ (self.PutTimer = none → (Put E c clk self k v).1.PutTimer = none)
    ∧ (Put E c clk self k v).1.GetTimer = self.GetTimer
    ∧ (Put E c clk self k v).1.DelTimer = self.DelTimer := by
  refine ⟨?_, ?_, rfl, rfl⟩
  · intro t ht
    simp [Put, ht, Timer.UpdateSince]
  · intro ht
    simp [Put, ht]

/-- One `Put` on an open session (the write succeeds) and one on a closed
session (the write fails with `ErrClosed`): one sample either way. -/
theorem Put_records_one_sample_witness :
    (metered "chaindata" MemDB.empty).PutTimer = some []
    ∧ (Put memdb runLengthCodec ⟨10, 17⟩ (metered "chaindata" MemDB.empty)
        (ascii "x") (ascii "hello")).2 = none
    ∧ (Put memdb runLengthCodec ⟨10, 17⟩ (metered "chaindata" MemDB.empty)
        (ascii "x") (ascii "hello")).1.PutTimer = some [7]
    ∧ (Put memdb runLengthCodec ⟨10, 17⟩ (metered "chaindata" (MemDB.mk true []))
        (ascii "x") (ascii "hello")).2 = some Error.ErrClosed
    ∧ (Put memdb runLengthCodec ⟨10, 17⟩ (metered "chaindata" (MemDB.mk true []))
        (ascii "x") (ascii "hello")).1.PutTimer = some [7]
    ∧ (bare "chaindata" MemDB.empty).PutTimer = none
    ∧ (Put memdb runLengthCodec ⟨10, 17⟩ (bare "chaindata" MemDB.empty)
        (ascii "x") (ascii "hello")).1.PutTimer = none :=
  ⟨rfl, by decide,
   ((Put_records_one_sample memdb runLengthCodec ⟨10, 17⟩ (metered "chaindata" MemDB.empty)
      (ascii "x") (ascii "hello")).1 [] rfl).1,
   by decide,
   ((Put_records_one_sample memdb runLengthCodec ⟨10, 17⟩
      (metered "chaindata" (MemDB.mk true [])) (ascii "x") (ascii "hello")).1 [] rfl).1,
   rfl,
   (Put_records_one_sample memdb runLengthCodec ⟨10, 17⟩ (bare "chaindata" MemDB.empty)
      (ascii "x") (ascii "hello")).2.1 rfl⟩

end ethdb
